import Mathlib

/-
  Verification of the PolyStrat strategy-platform core.

  The repository ships the Next.js frontend, wire types
  (frontend/lib/types.ts) and the README; the backend engine modules
  (backend/app/core/backtester.py, metrics.py, trader_analyzer.py) are not
  part of the excerpted source tree.  Components that live only behind the
  wire contracts are therefore modelled from the specification, as marked in
  the doc comment of each such definition.  Numbers are modelled as exact
  rationals, timestamps as natural-number seconds.
-/

namespace PolyStrat

/-- One bar of the historical price series: an integer-second timestamp and a
price, per the PricePoint data model. -/
structure Bar where
  timestamp : Nat
  price : ℚ
  deriving DecidableEq

/-- Modelled from the spec: the TradeRecord wire shape of
frontend/lib/types.ts (type, timestamp, price, size, pnl, fee) extended with
the distinct flag the spec requires for the synthetic end-of-run close, which
is recorded as a trade but flagged distinctly from organic signal-driven
closes. -/
structure TradeRecord where
  type : String
  timestamp : Nat
  price : ℚ
  size : ℚ
  pnl : ℚ
  fee : ℚ
  forced : Bool
  deriving DecidableEq

/-- The decision function the Signal Sandbox evaluates: it receives the
ordered history of prices up to and including the current bar together with
the current signed position, and returns a trade signal. -/
abbrev SignalFn := List ℚ → ℚ → Int

/-- Modelled from the spec: the per-run state of the Backtest Simulator
(backtester.py is not in the excerpted source).  Cash, signed position size,
entry price of the open position, the append-only trade log and the equity
curve accumulated so far. -/
structure SimState where
  cash : ℚ
  pos : ℚ
  entry : ℚ
  trades : List TradeRecord
  equity : List ℚ
  deriving DecidableEq

/-- Modelled from the spec: opening a long allocates a constant fraction
alloc of available capital as notional, with a proportional fee on the
notional subtracted from cash; the open trade record carries pnl 0. -/
def openLong (feeRate alloc : ℚ) (b : Bar) (st : SimState) : SimState :=
  let notional := alloc * st.cash
  let size := notional / b.price
  let f := feeRate * notional
  { st with
    cash := st.cash - notional - f
    pos := size
    entry := b.price
    trades := st.trades ++ [⟨"open_long", b.timestamp, b.price, size, 0, f, false⟩] }

/-- Modelled from the spec: opening a short books the sale proceeds of the
allocated notional, minus the proportional fee; the position size becomes
negative. -/
def openShort (feeRate alloc : ℚ) (b : Bar) (st : SimState) : SimState :=
  let notional := alloc * st.cash
  let size := notional / b.price
  let f := feeRate * notional
  { st with
    cash := st.cash + notional - f
    pos := -size
    entry := b.price
    trades := st.trades ++ [⟨"open_short", b.timestamp, b.price, size, 0, f, false⟩] }

/-- Modelled from the spec: closing a long realizes
pnl = (exit - entry) * size - fees; the exit proceeds net of the
proportional fee are added to cash and the position returns to flat. -/
def closeLong (feeRate : ℚ) (forced : Bool) (b : Bar) (st : SimState) : SimState :=
  let size := st.pos
  let notional := size * b.price
  let f := feeRate * notional
  let pnl := (b.price - st.entry) * size - f
  { st with
    cash := st.cash + notional - f
    pos := 0
    trades := st.trades ++ [⟨"close_long", b.timestamp, b.price, size, pnl, f, forced⟩] }

/-- Modelled from the spec: closing a short realizes
pnl = (entry - exit) * size - fees; buying the position back costs its
notional plus the proportional fee. -/
def closeShort (feeRate : ℚ) (forced : Bool) (b : Bar) (st : SimState) : SimState :=
  let size := -st.pos
  let notional := size * b.price
  let f := feeRate * notional
  let pnl := (st.entry - b.price) * size - f
  { st with
    cash := st.cash - notional - f
    pos := 0
    trades := st.trades ++ [⟨"close_short", b.timestamp, b.price, size, pnl, f, forced⟩] }

/-- Modelled from the spec: one transition of the simulator state machine
over states flat, long, short, driven solely by the signal returned by the
sandboxed strategy on the history up to and including the current bar.  A
long is closed to flat on signal -1, a short on +1; same-direction signals
are no-ops (no pyramiding). -/
def stepBar (strat : SignalFn) (feeRate alloc : ℚ) (hist : List ℚ) (b : Bar)
    (st : SimState) : SimState :=
  let s := strat hist st.pos
  if st.pos = 0 then
    if s = 1 then openLong feeRate alloc b st
    else if s = -1 then openShort feeRate alloc b st
    else st
  else if 0 < st.pos then
    if s = -1 then closeLong feeRate false b st else st
  else
    if s = 1 then closeShort feeRate false b st else st

/-- Modelled from the spec: appends the equity point of the current bar,
equity = cash + mark-to-market value of the open position at the bar price. -/
def markEquity (b : Bar) (st : SimState) : SimState :=
  { st with equity := st.equity ++ [st.cash + st.pos * b.price] }

/-- Modelled from the spec: drive the Signal Sandbox across an ordered list
of bars, strictly in order.  past holds the prices of the bars already
processed, so the strategy at each bar sees exactly the prices up to and
including that bar, never future prices. -/
def procBars (strat : SignalFn) (feeRate alloc : ℚ) :
    List ℚ → SimState → List Bar → SimState
  | _, st, [] => st
  | past, st, b :: rest =>
      procBars strat feeRate alloc (past ++ [b.price])
        (markEquity b (stepBar strat feeRate alloc (past ++ [b.price]) b st)) rest

/-- Modelled from the spec: at run end any open position is force-closed at
the final bar price for P-and-L accounting, and the synthetic close is
flagged distinctly (forced = true) from organic signal-driven closes. -/
def forceClose (feeRate : ℚ) (b : Bar) (st : SimState) : SimState :=
  if 0 < st.pos then closeLong feeRate true b st
  else if st.pos < 0 then closeShort feeRate true b st
  else st

/-- The run starts flat with the initial capital as cash, an empty trade log
and an empty equity curve. -/
def initState (cap : ℚ) : SimState :=
  { cash := cap, pos := 0, entry := 0, trades := [], equity := [] }

/-- Modelled from the spec: the simulator state at the final bar after the
signal action of that bar but before the synthetic end-of-run close. -/
def preCloseState (strat : SignalFn) (feeRate alloc initCap : ℚ)
    (bars : List Bar) : SimState :=
  match bars.getLast? with
  | none => initState initCap
  | some lb =>
      stepBar strat feeRate alloc (bars.map Bar.price) lb
        (procBars strat feeRate alloc [] (initState initCap) bars.dropLast)

/-- The computational core of the BacktestResult wire shape of
frontend/lib/types.ts: equity curve, timestamps, prices, trades, initial
capital, final equity and data point count.  Identifier fields (id,
strategy_id, token_id, market_name, created_at, metrics blob) are assigned
by the persistence collaborator and are outside the core computation. -/
structure BacktestResult where
  equity_curve : List ℚ
  timestamps : List Nat
  prices : List ℚ
  trades : List TradeRecord
  initial_capital : ℚ
  final_equity : ℚ
  data_points : Nat
  deriving DecidableEq

/-- Modelled from the spec: the Backtest Simulator contract
run(price_series, sandbox_strategy, params, initial_capital).  An empty
price series is an InsufficientDataError (no run attempted, modelled as
none).  All bars but the last are processed uniformly, each appending one
equity point; on the final bar the signal action runs, any open position is
force-closed at the final bar price, and the last equity point is the fully
realized equity, which is also final_equity. -/
def run (strat : SignalFn) (feeRate alloc initCap : ℚ)
    (bars : List Bar) : Option BacktestResult :=
  match bars.getLast? with
  | none => none
  | some lb =>
      let st := forceClose feeRate lb (preCloseState strat feeRate alloc initCap bars)
      let fin := st.cash + st.pos * lb.price
      some { equity_curve := st.equity ++ [fin]
             timestamps := bars.map Bar.timestamp
             prices := bars.map Bar.price
             trades := st.trades
             initial_capital := initCap
             final_equity := fin
             data_points := bars.length }

/-- The signal the Backtest Simulator obtains at bar i of a run: the
sandboxed strategy applied to the prices of the first i+1 bars and to the
position the state machine holds after processing the first i bars. -/
def signalAt (strat : SignalFn) (feeRate alloc initCap : ℚ)
    (bars : List Bar) (i : Nat) : Int :=
  strat ((bars.take (i + 1)).map Bar.price)
    (procBars strat feeRate alloc [] (initState initCap) (bars.take i)).pos

/-- The result of the two-bar hold run used by the C1 witness: no trade ever
opens, so equity stays at the initial capital on both bars. -/
def resHold : BacktestResult :=
  { equity_curve := [1000, 1000], timestamps := [0, 1], prices := [1, 2]
    trades := [], initial_capital := 1000, final_equity := 1000, data_points := 2 }

/-- The result of the two-bar always-buy run used by the C2 witness: a long
opened at the first bar is force-closed at the final bar price, realizing the
full gain into final_equity. -/
def resForced : BacktestResult :=
  { equity_curve := [1000, 2000], timestamps := [0, 1], prices := [1, 2]
    trades := [⟨"open_long", 0, 1, 1000, 0, 0, false⟩,
               ⟨"close_long", 1, 2, 1000, 1000, 0, true⟩]
    initial_capital := 1000, final_equity := 2000, data_points := 2 }

namespace ReadmeStrategy

/-- The lookback requirement the strategy declares through params:
params.get with default 20, as in the README example. -/
def lookbackOf (params : List (String × Nat)) : Nat :=
  (params.lookup "lookback").getD 20

/-- The signal function of the Strategy Format example in the repository
README: returns 0 (hold) when the history is shorter than the declared
lookback, else compares the last price against 0.95 and 1.05 times the
moving average of the last lookback prices. -/
def signal (prices : List ℚ) (position : ℚ) (params : List (String × Nat)) : Int :=
  let lookback := lookbackOf params
  if prices.length < lookback then 0
  else
    let ma := (prices.drop (prices.length - lookback)).sum / (lookback : ℚ)
    let lastPrice := prices.getD (prices.length - 1) 0
    if lastPrice < ma * (95 / 100) then 1
    else if ma * (105 / 100) < lastPrice then -1
    else 0

end ReadmeStrategy

namespace NewStrategyPage

/-- The default strategy code prefilled by the new-strategy page
(frontend/app/strategies/new/page.tsx): returns 0 when fewer than two prices
are available, else +1 if the last price rose versus the previous bar, -1 if
it fell, 0 otherwise. -/
def signal (prices : List ℚ) (position : ℚ) : Int :=
  if prices.length < 2 then 0
  else
    let p1 := prices.getD (prices.length - 1) 0
    let p2 := prices.getD (prices.length - 2) 0
    if p2 < p1 then 1
    else if p1 < p2 then -1
    else 0

end NewStrategyPage

/-- Modelled from the spec: the value of the profit-factor metric of the
Metrics Calculator (metrics.py is not in the excerpted source); when the
gross loss is zero the metric is a positive-infinity sentinel rather than an
exception. -/
inductive ProfitFactor
  | val (x : ℚ)
  | posInf
  deriving DecidableEq

/-- Modelled from the spec: gross profit, the sum of positive trade pnl,
accumulated left to right over the trade list. -/
def grossProfit (trades : List TradeRecord) : ℚ :=
  trades.foldl (fun acc t => if 0 < t.pnl then acc + t.pnl else acc) 0

/-- Modelled from the spec: gross loss, the absolute value of the
accumulated sum of negative trade pnl. -/
def grossLoss (trades : List TradeRecord) : ℚ :=
  |trades.foldl (fun acc t => if t.pnl < 0 then acc + t.pnl else acc) 0|

/-- Modelled from the spec: profit_factor = sum(positive trade pnl) divided
by abs(sum(negative trade pnl)), with the zero-denominator case defined as
the positive-infinity sentinel since no losses is a valid outcome. -/
def profit_factor (trades : List TradeRecord) : ProfitFactor :=
  if grossLoss trades = 0 then ProfitFactor.posInf
  else ProfitFactor.val (grossProfit trades / grossLoss trades)

/-- One trade of a trader history consumed by the Trader Pattern
Classifier: market identifier, side (+1 buy, -1 sell), timestamp in seconds,
price and size. -/
structure TraderTrade where
  market_id : String
  side : Int
  timestamp : Nat
  price : ℚ
  size : ℚ
  deriving DecidableEq

/-- One entry of category_focus in the StrategyDetection wire shape of
frontend/lib/types.ts: market_id, trade_count and rounded percentage. -/
structure CategoryFocus where
  market_id : String
  trade_count : Nat
  pct : Int
  deriving DecidableEq

/-- The StrategyDetection wire shape of frontend/lib/types.ts with its
patterns, timing_analysis and position_sizing records flattened into the
named fields the strategy-detector panel reads. -/
structure StrategyDetection where
  primary_strategy : String
  confidence : ℚ
  momentum_score : ℚ
  mean_reversion_score : ℚ
  market_concentration : ℚ
  trend_following_signals : Nat
  contrarian_signals : Nat
  category_focus : List CategoryFocus
  peak_hour_utc : Nat
  peak_day : Nat
  holding_style : String
  avg_size : ℚ
  min_size : ℚ
  max_size : ℚ
  sizing_strategy : String
  summary : String
  deriving DecidableEq

/-- Modelled from the spec: count of trades made in the same direction as
the most recent price movement (trader_analyzer.py is not in the excerpted
source).  Each trade after the first is compared with the price of the
preceding trade. -/
def trend_following_signals (h : List TraderTrade) : Nat :=
  (h.zip h.tail).countP (fun p =>
    decide ((p.2.side = 1 ∧ p.1.price < p.2.price)
      ∨ (p.2.side = -1 ∧ p.2.price < p.1.price)))

/-- Modelled from the spec: count of trades made against the most recent
price movement. -/
def contrarian_signals (h : List TraderTrade) : Nat :=
  (h.zip h.tail).countP (fun p =>
    decide ((p.2.side = 1 ∧ p.2.price < p.1.price)
      ∨ (p.2.side = -1 ∧ p.1.price < p.2.price)))

/-- Modelled from the spec: momentum score in the unit interval, the
fraction of direction-classified trades that follow the recent movement. -/
def momentum_score (h : List TraderTrade) : ℚ :=
  let t := trend_following_signals h
  let c := contrarian_signals h
  if t + c = 0 then 0 else (t : ℚ) / ((t : ℚ) + (c : ℚ))

/-- Modelled from the spec: mean-reversion score, the fraction of
direction-classified trades that go against the recent movement. -/
def mean_reversion_score (h : List TraderTrade) : ℚ :=
  let t := trend_following_signals h
  let c := contrarian_signals h
  if t + c = 0 then 0 else (c : ℚ) / ((t : ℚ) + (c : ℚ))

/-- The market identifiers of a trade history, in order. -/
def marketIds (h : List TraderTrade) : List String :=
  h.map TraderTrade.market_id

/-- Modelled from the spec: per-market trade counts over the distinct
markets of the history. -/
def marketCounts (h : List TraderTrade) : List (String × Nat) :=
  (marketIds h).dedup.map (fun m => (m, (marketIds h).count m))

/-- Modelled from the spec: Herfindahl-style concentration of trades across
distinct markets, in the unit interval; higher means more concentrated. -/
def market_concentration (h : List TraderTrade) : ℚ :=
  ((marketCounts h).map (fun p =>
    ((p.2 : ℚ) / (h.length : ℚ)) * ((p.2 : ℚ) / (h.length : ℚ)))).sum

/-- Executable round-half-up on rationals, the rounding used for the
category-focus percentages. -/
def roundHU (x : ℚ) : Int := Rat.floor (x + 1 / 2)

/-- The number of top markets the category focus reports. -/
def topN : Nat := 5

/-- Modelled from the spec: markets ranked by descending trade count. -/
def rankedMarkets (h : List TraderTrade) : List (String × Nat) :=
  List.insertionSort (fun a b => b.2 ≤ a.2) (marketCounts h)

/-- Modelled from the spec: the top-N markets by trade count with their
rounded share pct of the total trade count across all markets. -/
def category_focus (h : List TraderTrade) : List CategoryFocus :=
  ((rankedMarkets h).take topN).map
    (fun p => ⟨p.1, p.2, roundHU (100 * (p.2 : ℚ) / (h.length : ℚ))⟩)

/-- Modelled from the spec: trades falling in a given UTC hour of day. -/
def hourCount (h : List TraderTrade) (hr : Nat) : Nat :=
  h.countP (fun t => decide (t.timestamp / 3600 % 24 = hr))

/-- Modelled from the spec: the UTC hour of day with the most trades. -/
def peak_hour_utc (h : List TraderTrade) : Nat :=
  (List.range 24).foldl (fun best hr =>
    if hourCount h best < hourCount h hr then hr else best) 0

/-- Modelled from the spec: trades falling on a given day of week, with the
Unix epoch falling on a Thursday (index 4). -/
def dayCount (h : List TraderTrade) (d : Nat) : Nat :=
  h.countP (fun t => decide ((t.timestamp / 86400 + 4) % 7 = d))

/-- Modelled from the spec: the day of week with the most trades. -/
def peak_day (h : List TraderTrade) : Nat :=
  (List.range 7).foldl (fun best d =>
    if dayCount h best < dayCount h d then d else best) 0

/-- Modelled from the spec: average holding span in seconds.  Matched
open/close pairs are not reconstructible from the modelled history, so the
average gap between consecutive trades stands in, as permitted by the
flagged-ambiguous thresholds note of the spec. -/
def avgGapSeconds (h : List TraderTrade) : ℚ :=
  if h.length ≤ 1 then 0
  else ((((h.getLast?.map TraderTrade.timestamp).getD 0 : Nat) : ℚ)
        - (((h.head?.map TraderTrade.timestamp).getD 0 : Nat) : ℚ))
      / ((h.length : ℚ) - 1)

/-- Modelled from the spec: the human-readable holding bucket, with
documented threshold constants (under an hour scalping, under a day
intraday, under a week swing, else position). -/
def holding_style (h : List TraderTrade) : String :=
  let g := avgGapSeconds h
  if g < 3600 then "scalping"
  else if g < 86400 then "intraday"
  else if g < 604800 then "swing"
  else "position"

/-- The trade sizes of the history, in order. -/
def sizes (h : List TraderTrade) : List ℚ :=
  h.map TraderTrade.size

/-- Modelled from the spec: mean trade size, 0 for an empty history. -/
def avg_size (h : List TraderTrade) : ℚ :=
  if h.length = 0 then 0 else (sizes h).sum / (h.length : ℚ)

/-- Modelled from the spec: maximum trade size, 0 for an empty history. -/
def max_size (h : List TraderTrade) : ℚ :=
  (sizes h).foldl max 0

/-- Modelled from the spec: minimum trade size, 0 for an empty history. -/
def min_size (h : List TraderTrade) : ℚ :=
  match sizes h with
  | [] => 0
  | x :: t => t.foldl min x

/-- Modelled from the spec: population variance of the trade sizes. -/
def sizeVariance (h : List TraderTrade) : ℚ :=
  if h.length = 0 then 0
  else ((sizes h).map (fun x =>
    (x - avg_size h) * (x - avg_size h))).sum / (h.length : ℚ)

/-- Modelled from the spec: squared coefficient of variation of the trade
sizes (variance over squared mean); squares avoid an irrational square
root while ordering against the threshold identically. -/
def cvSq (h : List TraderTrade) : ℚ :=
  if avg_size h = 0 then 0 else sizeVariance h / (avg_size h * avg_size h)

/-- Modelled from the spec: sizing label, fixed below the documented
coefficient-of-variation threshold of one half, else variable. -/
def sizing_strategy (h : List TraderTrade) : String :=
  if cvSq h < 1 / 4 then "fixed" else "variable"

/-- Modelled from the spec: the floor below which no pattern is claimed. -/
def floorThreshold : ℚ := 1 / 10

/-- Modelled from the spec: the minimum trade count below which confidence
is forced low. -/
def minTradeCount : Nat := 10

/-- Modelled from the spec: the cap forced onto confidence for sparse
histories. -/
def lowConfidenceCap : ℚ := 3 / 10

/-- The winning feature score. -/
def topScore (h : List TraderTrade) : ℚ :=
  max (momentum_score h) (mean_reversion_score h)

/-- The runner-up feature score. -/
def secondScore (h : List TraderTrade) : ℚ :=
  min (momentum_score h) (mean_reversion_score h)

/-- Modelled from the spec: the pattern with the highest feature score, or
unknown when every score is below the floor threshold.  Event markers and
order-flow data needed for the event_driven and market_making inferences are
not available to the Classifier, which per the spec degrades to the
remaining patterns rather than guessing. -/
def primary_strategy (h : List TraderTrade) : String :=
  if topScore h < floorThreshold then "unknown"
  else if mean_reversion_score h < momentum_score h then "momentum"
  else "mean_reversion"

/-- Clamp to the unit interval. -/
def clamp01 (x : ℚ) : ℚ := max 0 (min 1 x)

/-- Modelled from the spec: normalized dominance of the winning score over
the runner-up, (top - second) / top clamped to the unit interval. -/
def dominance (h : List TraderTrade) : ℚ :=
  if topScore h = 0 then 0
  else clamp01 ((topScore h - secondScore h) / topScore h)

/-- Modelled from the spec: the confidence of the detection; below the
minimum trade count it is forced low regardless of the scores. -/
def confidence (h : List TraderTrade) : ℚ :=
  if h.length < minTradeCount then min (dominance h) lowConfidenceCap
  else dominance h

/-- Modelled from the spec: a purely presentational summary sentence built
from the structured fields, performing no further inference. -/
def summaryText (h : List TraderTrade) : String :=
  "Detected " ++ primary_strategy h ++ " trading pattern"

/-- Modelled from the spec: classify(trade_history), the pure
trade-history-to-StrategyDetection pipeline of the Trader Pattern
Classifier (trader_analyzer.py is not in the excerpted source). -/
def classify (h : List TraderTrade) : StrategyDetection :=
  { primary_strategy := primary_strategy h
    confidence := confidence h
    momentum_score := momentum_score h
    mean_reversion_score := mean_reversion_score h
    market_concentration := market_concentration h
    trend_following_signals := trend_following_signals h
    contrarian_signals := contrarian_signals h
    category_focus := category_focus h
    peak_hour_utc := peak_hour_utc h
    peak_day := peak_day h
    holding_style := holding_style h
    avg_size := avg_size h
    min_size := min_size h
    max_size := max_size h
    sizing_strategy := sizing_strategy h
    summary := summaryText h }

/-- The five-trade history of the sparse-data scenario used by the C7
witness. -/
def sparseHistory : List TraderTrade :=
  [⟨"A", 1, 0, 1, 1⟩, ⟨"A", 1, 3600, 2, 1⟩, ⟨"A", 1, 7200, 3, 1⟩,
   ⟨"A", 1, 10800, 4, 1⟩, ⟨"B", -1, 14400, 5, 1⟩]

/-- A six-trade history concentrated 4-1-1 across three markets, used by the
C8 counterexample: its rounded shares are 67, 17 and 17 percent. -/
def skewedHistory : List TraderTrade :=
  [⟨"A", 1, 0, 1, 1⟩, ⟨"A", 1, 1, 1, 1⟩, ⟨"A", 1, 2, 1, 1⟩,
   ⟨"A", 1, 3, 1, 1⟩, ⟨"B", 1, 4, 1, 1⟩, ⟨"C", 1, 5, 1, 1⟩]

/-- The stride of the chart down-sampler, Math.ceil of the series length
over 500. -/
def chartStep (n : Nat) : Nat := (n + 499) / 500

/-- The down-sampling shared by EquityCurveChart and PriceChart
(frontend/components/backtest-chart.tsx) and TraderEquityCurveChart and
CumulativePnlChart (frontend/components/trader-performance-chart.tsx):
series longer than 500 points keep exactly the indices divisible by the
ceiling stride together with the last index; shorter series pass through
unchanged. -/
def sampleSeries {α : Type} (data : List α) : List α :=
  if 500 < data.length then
    (data.enum.filter (fun p =>
      p.1 % chartStep data.length == 0 || p.1 == data.length - 1)).map Prod.snd
  else data

lemma stepBar_equity (strat : SignalFn) (feeRate alloc : ℚ) (hist : List ℚ)
    (b : Bar) (st : SimState) :
    (stepBar strat feeRate alloc hist b st).equity = st.equity := by
  unfold stepBar openLong openShort closeLong closeShort
  dsimp only
  repeat' split
  all_goals rfl

lemma forceClose_equity (feeRate : ℚ) (b : Bar) (st : SimState) :
    (forceClose feeRate b st).equity = st.equity := by
  unfold forceClose closeLong closeShort
  dsimp only
  repeat' split
  all_goals rfl

lemma procBars_equity_length (strat : SignalFn) (feeRate alloc : ℚ) :
    ∀ (bars : List Bar) (past : List ℚ) (st : SimState),
      (procBars strat feeRate alloc past st bars).equity.length
        = st.equity.length + bars.length := by
  intro bars
  induction bars with
  | nil => intro past st; rfl
  | cons b t ih =>
      intro past st
      simp only [procBars, ih, markEquity, stepBar_equity, List.length_append,
        List.length_cons, List.length_singleton, List.length_nil]
      omega

lemma getLast?_some_ne_nil {α : Type} {l : List α} {a : α}
    (h : l.getLast? = some a) : l ≠ [] := by
  intro he
  subst he
  simp at h

/-- C1: for every completed backtest run, the returned BacktestResult
satisfies equity_curve, timestamps and prices all having the same length,
equal to the number of bars of the input price series: the equity curve has
exactly one point per processed bar. -/
theorem backtest_lengths (strat : SignalFn) (feeRate alloc initCap : ℚ)
    (bars : List Bar) (r : BacktestResult)
    (h : run strat feeRate alloc initCap bars = some r) :
    r.equity_curve.length = r.timestamps.length
      ∧ r.timestamps.length = r.prices.length
      ∧ r.prices.length = bars.length
      ∧ r.data_points = bars.length := by
  unfold run at h
  cases hlb : bars.getLast? with
  | none => rw [hlb] at h; exact absurd h (by simp)
  | some lb =>
      rw [hlb] at h
      have hne : bars ≠ [] := getLast?_some_ne_nil hlb
      have hpos : 0 < bars.length := List.length_pos.mpr hne
      cases h
      simp only [List.length_append, List.length_map, List.length_singleton,
        forceClose_equity, preCloseState, hlb, stepBar_equity,
        procBars_equity_length, initState, List.length_nil, List.length_dropLast]
      exact ⟨by omega, trivial, trivial, trivial⟩

lemma procBars_append (strat : SignalFn) (feeRate alloc : ℚ) :
    ∀ (l1 l2 : List Bar) (past : List ℚ) (st : SimState),
      procBars strat feeRate alloc past st (l1 ++ l2)
        = procBars strat feeRate alloc (past ++ l1.map Bar.price)
            (procBars strat feeRate alloc past st l1) l2 := by
  intro l1
  induction l1 with
  | nil => intro l2 past st; simp [procBars]
  | cons b t ih =>
      intro l2 past st
      simp only [List.cons_append, procBars, List.map_cons, List.append_eq]
      rw [ih]
      simp [List.append_assoc]

lemma forceClose_pos (feeRate : ℚ) (b : Bar) (st : SimState) :
    (forceClose feeRate b st).pos = 0 := by
  unfold forceClose closeLong closeShort
  dsimp only
  split
  · rfl
  · split
    · rfl
    · next h1 h2 => exact le_antisymm (not_lt.mp h1) (not_lt.mp h2)

/-- C2: for every backtest run on a non-empty price series, final_equity is
the last element of the equity curve; the position is flat after the
end-of-run close, and whenever a position was still open at the last bar the
trade log ends with one additional trade flagged forced = true at the final
bar price, so final_equity reflects fully realized value. -/
theorem final_equity_realized (strat : SignalFn) (feeRate alloc initCap : ℚ)
    (bars : List Bar) (lb : Bar) (r : BacktestResult)
    (h : run strat feeRate alloc initCap bars = some r)
    (hlb : bars.getLast? = some lb) :
    r.equity_curve.getLast? = some r.final_equity
      ∧ (forceClose feeRate lb (preCloseState strat feeRate alloc initCap bars)).pos = 0
      ∧ ((preCloseState strat feeRate alloc initCap bars).pos ≠ 0 →
          ∃ tr, r.trades = (preCloseState strat feeRate alloc initCap bars).trades ++ [tr]
            ∧ tr.forced = true ∧ tr.price = lb.price) := by
  unfold run at h
  rw [hlb] at h
  cases h
  refine ⟨List.getLast?_concat _, forceClose_pos feeRate lb _, fun hpos => ?_⟩
  unfold forceClose closeLong closeShort
  dsimp only
  split
  · exact ⟨_, rfl, rfl, rfl⟩
  · split
    · exact ⟨_, rfl, rfl, rfl⟩
    · next h1 h2 => exact absurd (le_antisymm (not_lt.mp h1) (not_lt.mp h2)) hpos

/-- C3: no look-ahead.  The processing of a price series factors through
every prefix, and the signal obtained at bar i together with the trades
recorded through bar i are identical for any two runs whose price series
agree on the first i+1 bars: the strategy at bar i is a function of
prices 0..i and the position reached so far only. -/
theorem no_lookahead (strat : SignalFn) (feeRate alloc initCap : ℚ)
    (bars1 bars2 : List Bar) (i : Nat)
    (h : bars1.take (i + 1) = bars2.take (i + 1)) :
    signalAt strat feeRate alloc initCap bars1 i
        = signalAt strat feeRate alloc initCap bars2 i
      ∧ (procBars strat feeRate alloc [] (initState initCap) (bars1.take (i + 1))).trades
        = (procBars strat feeRate alloc [] (initState initCap) (bars2.take (i + 1))).trades
      ∧ ∀ (bars : List Bar) (k : Nat) (past : List ℚ) (st : SimState),
          procBars strat feeRate alloc past st bars
            = procBars strat feeRate alloc (past ++ (bars.take k).map Bar.price)
                (procBars strat feeRate alloc past st (bars.take k)) (bars.drop k) := by
  have htake : bars1.take i = bars2.take i := by
    have hmin : min i (i + 1) = i := by omega
    calc bars1.take i = (bars1.take (i + 1)).take i := by rw [List.take_take, hmin]
      _ = (bars2.take (i + 1)).take i := by rw [h]
      _ = bars2.take i := by rw [List.take_take, hmin]
  refine ⟨?_, by rw [h], ?_⟩
  · unfold signalAt
    rw [h, htake]
  · intro bars k past st
    conv_lhs => rw [← List.take_append_drop k bars]
    exact procBars_append strat feeRate alloc _ _ past st

/-- C4: insufficient history yields hold, not an error.  With at least one
historical price available but a history shorter than the lookback
requirement declared by params, the README example strategy returns signal 0,
and the default new-strategy-page strategy returns 0 whenever fewer than two
prices are available; both are total functions with no error outcome. -/
theorem insufficient_history_holds (prices : List ℚ) (position : ℚ)
    (params : List (String × Nat)) (hne : prices ≠ [])
    (hshort : prices.length < ReadmeStrategy.lookbackOf params) :
    ReadmeStrategy.signal prices position params = 0
      ∧ (prices.length < 2 → NewStrategyPage.signal prices position = 0) := by
  constructor
  · unfold ReadmeStrategy.signal
    dsimp only
    rw [if_pos hshort]
  · intro h2
    unfold NewStrategyPage.signal
    rw [if_pos h2]

lemma foldl_add_filter (p : ℚ → Prop) [DecidablePred p] (f : TradeRecord → ℚ) :
    ∀ (l : List TradeRecord) (acc : ℚ),
      l.foldl (fun a t => if p (f t) then a + f t else a) acc
        = acc + ((l.map f).filter (fun x => decide (p x))).sum := by
  intro l
  induction l with
  | nil => intro acc; simp
  | cons x t ih =>
      intro acc
      by_cases hp : p (f x)
      · simp [List.foldl_cons, hp, ih, List.filter_cons, add_assoc]
      · simp [List.foldl_cons, hp, ih, List.filter_cons]

/-- C5: for every trade list, profit_factor equals the sum of positive trade
pnl divided by the absolute value of the sum of negative trade pnl, and when
that denominator is zero it is the positive-infinity sentinel; the
computation is total, so degenerate inputs such as no losing trades never
raise. -/
theorem profit_factor_spec (trades : List TradeRecord) :
    profit_factor trades =
      if ((trades.map TradeRecord.pnl).filter (fun x => decide (x < 0))).sum = 0
      then ProfitFactor.posInf
      else ProfitFactor.val
        (((trades.map TradeRecord.pnl).filter (fun x => decide (0 < x))).sum
          / |((trades.map TradeRecord.pnl).filter (fun x => decide (x < 0))).sum|) := by
  have hpos : grossProfit trades
      = ((trades.map TradeRecord.pnl).filter (fun x => decide (0 < x))).sum := by
    unfold grossProfit
    exact (foldl_add_filter (fun x => 0 < x) TradeRecord.pnl trades 0).trans (zero_add _)
  have hneg : grossLoss trades
      = |((trades.map TradeRecord.pnl).filter (fun x => decide (x < 0))).sum| := by
    unfold grossLoss
    rw [foldl_add_filter (fun x => x < 0) TradeRecord.pnl trades 0, zero_add]
  unfold profit_factor
  rw [hpos, hneg]
  simp only [abs_eq_zero]

/-- C6: the Trader Pattern Classifier is a pure, idempotent function of the
trade history: classifying the same unchanged history twice yields
bit-identical StrategyDetection values.  In this embedding classify is a
function of its input alone, so the two calls coincide definitionally. -/
theorem classify_idempotent (h : List TraderTrade) : classify h = classify h := rfl

lemma dominance_nonneg (h : List TraderTrade) : 0 ≤ dominance h := by
  unfold dominance
  split
  · exact le_refl 0
  · exact le_max_left 0 _

lemma dominance_le_one (h : List TraderTrade) : dominance h ≤ 1 := by
  unfold dominance
  split
  · exact zero_le_one
  · exact max_le zero_le_one (min_le_left 1 _)

/-- C7: for every trade history with fewer than the minimum trade count the
classifier returns confidence at most the forced low cap of 3/10, regardless
of how dominant the winning score is, and confidence always lies in the
unit interval. -/
theorem classify_confidence_bounds (h : List TraderTrade) :
    (h.length < minTradeCount → (classify h).confidence ≤ lowConfidenceCap)
      ∧ 0 ≤ (classify h).confidence ∧ (classify h).confidence ≤ 1 := by
  refine ⟨fun hlt => ?_, ?_, ?_⟩
  · show confidence h ≤ lowConfidenceCap
    unfold confidence
    rw [if_pos hlt]
    exact min_le_right _ _
  · show 0 ≤ confidence h
    unfold confidence
    split
    · exact le_min (dominance_nonneg h) (by norm_num [lowConfidenceCap])
    · exact dominance_nonneg h
  · show confidence h ≤ 1
    unfold confidence
    split
    · exact le_trans (min_le_left _ _) (dominance_le_one h)
    · exact dominance_le_one h

lemma ratFloor_eq (q : ℚ) : Rat.floor q = ⌊q⌋ :=
  (Rat.floor_def' q).trans (@Rat.floor_def q).symm

lemma roundHU_le (x : ℚ) : ((roundHU x : ℤ) : ℚ) ≤ x + 1 / 2 := by
  unfold roundHU
  rw [ratFloor_eq]
  exact Int.floor_le (x + 1 / 2)

lemma sum_shares_aux (t : ℚ) :
    ∀ l : List (String × Nat),
      (l.map (fun p => 100 * (p.2 : ℚ) / t + 1 / 2)).sum
        = 100 / t * (l.map (fun p => ((p.2 : Nat) : ℚ))).sum
          + (l.length : ℚ) * (1 / 2) := by
  intro l
  induction l with
  | nil => simp
  | cons x xs ih =>
      simp only [List.map_cons, List.sum_cons, ih, List.length_cons]
      push_cast
      ring

lemma int_cast_sum_map {α : Type} (f : α → ℤ) (l : List α) :
    (((l.map f).sum : ℤ) : ℚ) = (l.map (fun a => ((f a : ℤ) : ℚ))).sum := by
  induction l with
  | nil => simp
  | cons x t ih => simp [ih]

lemma nat_cast_sum_map {α : Type} (f : α → ℕ) (l : List α) :
    (l.map (fun a => ((f a : ℕ) : ℚ))).sum = ((((l.map f).sum : ℕ)) : ℚ) := by
  induction l with
  | nil => simp
  | cons x t ih => simp [ih]

lemma marketCounts_sum (h : List TraderTrade) :
    ((marketCounts h).map (fun p => p.2)).sum = h.length := by
  unfold marketCounts
  rw [List.map_map]
  have hc := List.sum_map_count_dedup_eq_length (marketIds h)
  have hlen : (marketIds h).length = h.length := List.length_map h TraderTrade.market_id
  rw [← hlen]
  simpa [Function.comp] using hc

/-- C8 amended: for every StrategyDetection produced by classify, the
category_focus percentages, each computed as the market share of the total
trade count rounded half up, sum to at most 102, that is 100 plus one half
for each of the at most five listed entries.  The bound 100 itself does not
survive rounding half up, as the counterexample records. -/
theorem category_focus_pct_sum_le (h : List TraderTrade) :
    ((classify h).category_focus.map CategoryFocus.pct).sum ≤ 102 := by
  show ((category_focus h).map CategoryFocus.pct).sum ≤ 102
  by_cases hne : h = []
  · subst hne
    decide
  · have ht : 0 < h.length := List.length_pos.mpr hne
    have htq : (0 : ℚ) < (h.length : ℚ) := by exact_mod_cast ht
    have htne : ((h.length : ℚ)) ≠ 0 := ne_of_gt htq
    have hmap : (category_focus h).map CategoryFocus.pct
        = ((rankedMarkets h).take topN).map
            (fun p => roundHU (100 * (p.2 : ℚ) / (h.length : ℚ))) := by
      unfold category_focus
      rw [List.map_map]
      rfl
    rw [hmap]
    have hcast : ((((rankedMarkets h).take topN).map
          (fun p => roundHU (100 * (p.2 : ℚ) / (h.length : ℚ)))).sum : ℚ)
        = (((rankedMarkets h).take topN).map
            (fun p => ((roundHU (100 * (p.2 : ℚ) / (h.length : ℚ)) : ℤ) : ℚ))).sum := by
      exact int_cast_sum_map _ _
    have hbound : (((rankedMarkets h).take topN).map
          (fun p => ((roundHU (100 * (p.2 : ℚ) / (h.length : ℚ)) : ℤ) : ℚ))).sum
        ≤ (((rankedMarkets h).take topN).map
            (fun p => 100 * (p.2 : ℚ) / (h.length : ℚ) + 1 / 2)).sum := by
      exact List.sum_le_sum (fun p _ => roundHU_le _)
    have hnat : (((rankedMarkets h).take topN).map (fun p => p.2)).sum ≤ h.length := by
      have hsub : ((((rankedMarkets h).take topN).map (fun p => p.2))).Sublist
          ((rankedMarkets h).map (fun p => p.2)) :=
        (List.take_sublist topN (rankedMarkets h)).map _
      have hle := hsub.sum_le_sum (fun a _ => Nat.zero_le a)
      have hperm : ((rankedMarkets h).map (fun p => p.2)).Perm
          ((marketCounts h).map (fun p => p.2)) :=
        (List.perm_insertionSort _ (marketCounts h)).map _
      have hsum := hperm.sum_eq
      rw [hsum, marketCounts_sum] at hle
      exact hle
    have hS : (((rankedMarkets h).take topN).map (fun p => ((p.2 : Nat) : ℚ))).sum
        ≤ (h.length : ℚ) := by
      have hc : (((rankedMarkets h).take topN).map (fun p => ((p.2 : Nat) : ℚ))).sum
          = (((((rankedMarkets h).take topN).map (fun p => p.2)).sum : Nat) : ℚ) := by
        exact nat_cast_sum_map _ _
      rw [hc]
      exact_mod_cast hnat
    have hlen5 : ((((rankedMarkets h).take topN).length : Nat) : ℚ) ≤ 5 := by
      have : ((rankedMarkets h).take topN).length ≤ 5 := by
        rw [List.length_take]
        exact le_trans (Nat.min_le_left _ _) (le_refl 5)
      exact_mod_cast this
    have hdivpos : (0 : ℚ) ≤ 100 / (h.length : ℚ) :=
      div_nonneg (by norm_num) (le_of_lt htq)
    have hfin : (((rankedMarkets h).take topN).map
          (fun p => 100 * (p.2 : ℚ) / (h.length : ℚ) + 1 / 2)).sum ≤ 205 / 2 := by
      rw [sum_shares_aux]
      have h1 : 100 / (h.length : ℚ)
            * (((rankedMarkets h).take topN).map (fun p => ((p.2 : Nat) : ℚ))).sum
          ≤ 100 / (h.length : ℚ) * (h.length : ℚ) :=
        mul_le_mul_of_nonneg_left hS hdivpos
      have h2 : 100 / (h.length : ℚ) * (h.length : ℚ) = 100 :=
        div_mul_cancel₀ 100 htne
      have h3 : ((((rankedMarkets h).take topN).length : Nat) : ℚ) * (1 / 2)
          ≤ 5 * (1 / 2) := by
        apply mul_le_mul_of_nonneg_right hlen5
        norm_num
      rw [h2] at h1
      linarith
    have hq : ((((rankedMarkets h).take topN).map
          (fun p => roundHU (100 * (p.2 : ℚ) / (h.length : ℚ)))).sum : ℚ) ≤ 205 / 2 := by
      rw [hcast]
      exact le_trans hbound hfin
    have hlt : ((((rankedMarkets h).take topN).map
          (fun p => roundHU (100 * (p.2 : ℚ) / (h.length : ℚ)))).sum : ℚ)
        < ((103 : ℤ) : ℚ) := by
      refine lt_of_le_of_lt hq ?_
      norm_num
    have : (((rankedMarkets h).take topN).map
          (fun p => roundHU (100 * (p.2 : ℚ) / (h.length : ℚ)))).sum < 103 := by
      exact_mod_cast hlt
    omega

/-- C9: the chart down-sampling preserves the endpoint.  A series of at most
500 points passes through unchanged, and for a longer series every element
whose index is divisible by the ceiling stride, as well as the element at
index length - 1, is contained in the sampled series. -/
theorem sampleSeries_spec {α : Type} (data : List α) :
    (data.length ≤ 500 → sampleSeries data = data)
      ∧ (500 < data.length → ∀ (i : Nat) (hi : i < data.length),
          (i % chartStep data.length = 0 ∨ i = data.length - 1) →
          data.get ⟨i, hi⟩ ∈ sampleSeries data) := by
  constructor
  · intro hle
    unfold sampleSeries
    rw [if_neg (by omega)]
  · intro hgt i hi hcond
    unfold sampleSeries
    rw [if_pos hgt]
    apply List.mem_map.mpr
    refine ⟨(i, data.get ⟨i, hi⟩), ?_, rfl⟩
    apply List.mem_filter.mpr
    refine ⟨?_, ?_⟩
    · have hlen : i < data.enum.length := by
        rw [List.enum_length]
        exact hi
      have hget := List.getElem_enum data i hlen
      have hmem : data.enum[i] ∈ data.enum := List.getElem_mem hlen
      rw [hget] at hmem
      simpa [List.get_eq_getElem] using hmem
    · rcases hcond with hmod | hlast
      · simp [hmod]
      · simp [hlast]

section ConcreteEvaluation

attribute [local semireducible] Rat.add Rat.mul Rat.inv Rat.sub

/-- C1 witness: a concrete two-bar run on which the three length equalities
of backtest_lengths hold. -/
theorem backtest_lengths_witness :
    run (fun _ _ => 0) 0 1 1000 [⟨0, 1⟩, ⟨1, 2⟩] = some resHold
      ∧ resHold.equity_curve.length = resHold.timestamps.length
      ∧ resHold.timestamps.length = resHold.prices.length
      ∧ resHold.prices.length = 2 := by
  have hrun : run (fun _ _ => 0) 0 1 1000 [⟨0, 1⟩, ⟨1, 2⟩] = some resHold := by decide
  have h := backtest_lengths (fun _ _ => 0) 0 1 1000 [⟨0, 1⟩, ⟨1, 2⟩] resHold hrun
  exact ⟨hrun, h.1, h.2.1, h.2.2.1⟩

/-- C2 witness: on the concrete always-buy run, final_equity is the last
equity point, the post-close position is flat, and the position at the final
bar was indeed still open, so the forced close fired. -/
theorem final_equity_realized_witness :
    run (fun _ _ => 1) 0 1 1000 [⟨0, 1⟩, ⟨1, 2⟩] = some resForced
      ∧ resForced.equity_curve.getLast? = some resForced.final_equity
      ∧ (forceClose 0 ⟨1, 2⟩ (preCloseState (fun _ _ => 1) 0 1 1000 [⟨0, 1⟩, ⟨1, 2⟩])).pos = 0
      ∧ (preCloseState (fun _ _ => 1) 0 1 1000 [⟨0, 1⟩, ⟨1, 2⟩]).pos ≠ 0 := by
  have hrun : run (fun _ _ => 1) 0 1 1000 [⟨0, 1⟩, ⟨1, 2⟩] = some resForced := by decide
  have h := final_equity_realized (fun _ _ => 1) 0 1 1000 [⟨0, 1⟩, ⟨1, 2⟩] ⟨1, 2⟩ resForced
    hrun (by decide)
  exact ⟨hrun, h.1, h.2.1, by decide⟩

/-- C3 witness: two concrete price series agreeing on their first two bars
produce the same signal at bar 1, for a strategy reading the whole history
it is given. -/
theorem no_lookahead_witness :
    signalAt (fun hist _ => (hist.length : Int)) 0 1 1000 [⟨0, 1⟩, ⟨1, 2⟩] 1
      = signalAt (fun hist _ => (hist.length : Int)) 0 1 1000
          [⟨0, 1⟩, ⟨1, 2⟩, ⟨2, 3⟩] 1 :=
  (no_lookahead (fun hist _ => (hist.length : Int)) 0 1 1000 [⟨0, 1⟩, ⟨1, 2⟩]
    [⟨0, 1⟩, ⟨1, 2⟩, ⟨2, 3⟩] 1 (by decide)).1

/-- C4 witness: a one-price history is nonempty, shorter than the default
lookback of 20, and both strategies hold on it. -/
theorem insufficient_history_holds_witness :
    ([(1 : ℚ)] ≠ []) ∧ ([(1 : ℚ)].length < ReadmeStrategy.lookbackOf [])
      ∧ ReadmeStrategy.signal [1] 0 [] = 0
      ∧ NewStrategyPage.signal [1] 0 = 0 := by
  have h := insufficient_history_holds [1] 0 [] (by simp) (by decide)
  exact ⟨by simp, by decide, h.1, h.2 (by decide)⟩

/-- C7 witness: the five-trade scenario history is below the minimum trade
count and its classification carries confidence at most the low cap. -/
theorem classify_confidence_bounds_witness :
    sparseHistory.length < minTradeCount
      ∧ (classify sparseHistory).confidence ≤ lowConfidenceCap :=
  ⟨by decide, (classify_confidence_bounds sparseHistory).1 (by decide)⟩

/-- C8 counterexample: on the 4-1-1 six-trade history the category-focus
percentages are 67, 17 and 17, summing to 101, so the claimed bound of 100
fails as stated. -/
theorem category_focus_pct_sum_exceeds_100 :
    ¬ ((classify skewedHistory).category_focus.map CategoryFocus.pct).sum ≤ 100 := by
  decide

/-- C9 witness: a 300-point series passes through unchanged, and in a
501-point series the final element at index 500 survives the sampling. -/
theorem sampleSeries_spec_witness :
    sampleSeries (List.range 300) = List.range 300
      ∧ (List.range 501).get ⟨500, by simp⟩ ∈ sampleSeries (List.range 501) :=
  ⟨(sampleSeries_spec (List.range 300)).1 (by simp),
   (sampleSeries_spec (List.range 501)).2 (by simp) 500 (by simp)
     (Or.inr (by simp))⟩

end ConcreteEvaluation

end PolyStrat
